import Mathlib

set_option maxRecDepth 8000

/-
Verification of the real-time price streaming and valuation layer of the
scalp dashboard repository.

Shallow embedding conventions:
- JavaScript numbers are modelled by JNum: a rational or NaN; floating-point
  rounding is outside the model.  A price field fed to parseFloat is
  modelled as Option JNum, where none stands for an absent (undefined)
  value and JNum.nan for a present but unparseable or null one, whose
  parseFloat is NaN.  Raw JSON numbers (never NaN, since JSON cannot
  encode it) are modelled as plain rationals.
- JavaScript objects used as string-keyed maps are modelled as association
  lists built with setKey (insertion order preserved, assignment to an
  existing key overwrites in place), as JS object literals behave.
- JS truthiness: a number is falsy iff it is 0 or NaN, a string is falsy
  iff it is empty, undefined and null are falsy.
- The distinction between undefined, null and NaN matters to the source
  (sidesData values are compared against undefined with !==, then against
  null, and NaN passes both), so stored side prices are modelled by the
  four-valued type JVal.
-/

namespace Scalp

/-- JS object map lookup: first entry with the given key, none if absent. -/
def getKey : List (String × α) → String → Option α
  | [], _ => none
  | p :: rest, k => if p.1 = k then some p.2 else getKey rest k

/-- JS object key assignment: overwrite an existing key in place, otherwise
append at the end (object key insertion order). -/
def setKey : List (String × α) → String → α → List (String × α)
  | [], k, v => [(k, v)]
  | p :: rest, k, v => if p.1 = k then (k, v) :: rest else p :: setKey rest k v

/-- Truthiness of an optional string: present and nonempty. -/
def strTruthy : Option String → Bool
  | some s => s ≠ ""
  | none => false

/-- JS a or-else b on optional strings: a if truthy, otherwise the value of b. -/
def jsOrStr (a b : Option String) : Option String :=
  match a with
  | some s => if s ≠ "" then some s else b
  | none => b

/-- Lexicographic comparison of char lists by code point, as the default JS
array sort comparator orders strings. -/
def chListLeB : List Char → List Char → Bool
  | [], _ => true
  | _ :: _, [] => false
  | a :: as, b :: bs =>
    if a.val < b.val then true
    else if b.val < a.val then false
    else chListLeB as bs

/-- String comparison used to model the default JS sort on slug arrays. -/
def strLeB (a b : String) : Bool := chListLeB a.data b.data

/-- The last n elements of a list, as the JS slice(-n) used to cap series. -/
def takeLast (n : Nat) (l : List α) : List α := l.drop (l.length - n)

/-- A JS number: a rational, or NaN as produced by parseFloat on a present
but unparseable or null value. -/
inductive JNum where
  | num (v : Rat)
  | nan
deriving DecidableEq, Repr

/-- JS addition: NaN propagates. -/
def jnumAdd : JNum → JNum → JNum
  | JNum.num a, JNum.num b => JNum.num (a + b)
  | _, _ => JNum.nan

/-- JS subtraction: NaN propagates. -/
def jnumSub : JNum → JNum → JNum
  | JNum.num a, JNum.num b => JNum.num (a - b)
  | _, _ => JNum.nan

/-- JS multiplication: NaN propagates. -/
def jnumMul : JNum → JNum → JNum
  | JNum.num a, JNum.num b => JNum.num (a * b)
  | _, _ => JNum.nan

/-- A stored side-price value as the source distinguishes them: a real
number, NaN (stored by the market_data_lite branch when a present price
does not parse), the JS null (written by the parseFloat(x) or-null
branches), or undefined (absent key, or an all-falsy object fallthrough). -/
inductive JVal where
  | undefined
  | null
  | num (v : Rat)
  | nan
deriving DecidableEq, Repr

/-- One value of a sides map in the generic frame shape: a raw number, an
object with optional price, lastPrice and ask fields, or a nullish value
(null or undefined), which the source skips. -/
inductive SideInfo where
  | num (v : Rat)
  | obj (price lastPrice ask : Option Rat)
  | nullish
deriving DecidableEq, Repr

/-- An element of an outcomes array: name, and the price by its parseFloat
result — none when the key is absent (undefined), JNum.nan when it is
present but null or unparseable. -/
structure OutcomeEntry where
  name : Option String
  price : Option JNum
deriving DecidableEq, Repr

/-- An element of a marketSides array: description, and the price by its
parseFloat result as in OutcomeEntry. -/
structure MarketSideEntry where
  description : Option String
  price : Option JNum
deriving DecidableEq, Repr

/-- The data part of a generic market-update frame (msg.data or msg itself):
at most one of sides, marketSides and outcomes is consulted, in that order. -/
structure GenericData where
  sides : Option (List (String × SideInfo)) := none
  marketSides : Option (List MarketSideEntry) := none
  outcomes : Option (List OutcomeEntry) := none
  bestBid : Option Rat := none
  bestAsk : Option Rat := none
  lastTradePrice : Option Rat := none
  spread : Option Rat := none
deriving DecidableEq, Repr

/-- The per-market entry stored in the prices map exposed to the UI.
The hook (src/hooks/usePolymarketWebSocket.js) writes sides, bestBid,
bestAsk, lastTradePrice and spread; the part_006 revision additionally
writes currentPx, lastTradePx, settlementPx, sharesTraded and the two
inferred prices, which the consumer in part_003 reads. -/
structure PriceEntry where
  sides : Option (List (String × JVal)) := none
  bestBid : Option Rat := none
  bestAsk : Option Rat := none
  lastTradePrice : Option Rat := none
  spread : Option Rat := none
  currentPx : Option Rat := none
  lastTradePx : Option Rat := none
  settlementPx : Option Rat := none
  sharesTraded : Option Rat := none
  inferredYesPrice : Option Rat := none
  inferredNoPrice : Option Rat := none
deriving DecidableEq, Repr

/-- An inbound SSE frame, by the disjoint shapes the hook's handleMessage
dispatches on: control frames carrying a type field, market_data_lite
frames, subscription acknowledgements, and generic market updates whose
slug is the first truthy of msg.slug, msg.market_slug and msg.marketSlug
and whose data field models msg.data or-else msg itself.  The
market_data_lite bestBid and bestAsk carry the parse of best_bid and
best_ask when present (assumed parseable; the claims concern only the
outcome prices, where NaN is modelled explicitly). -/
inductive Msg where
  | control (type : String) (message : Option String)
  | marketDataLite (slugField marketSlugField : Option String)
      (outcomes : Option (List OutcomeEntry)) (bestBid bestAsk : Option Rat)
  | subscribed
  | generic (slugA slugB slugC : Option String) (data : GenericData)
deriving DecidableEq, Repr

/-- The hook state touched by message handling and the transport:
prices map, connected flag, error string, the reconnect attempt counter and
timer, the slugs of the active connection (currentSlugsRef), and the
EventSource bookkeeping (which connection ids were opened with which slugs,
which are closed, and which one the ref currently points at). -/
structure HookState where
  prices : List (String × PriceEntry) := []
  connected : Bool := false
  error : Option String := none
  reconnectAttempts : Nat := 0
  reconnectTimeoutPending : Bool := false
  currentSlugs : List String := []
  eventSource : Option Nat := none
  closedConns : List Nat := []
  openedConns : List (Nat × List String) := []
  nextId : Nat := 0
deriving DecidableEq, Repr

/-- The initial hook state: empty maps, disconnected, zero attempts. -/
def initialHookState : HookState := {}

/-- JS msg.message or-else a default: the message if present and nonempty,
the fallback otherwise. -/
def jsOrStrDefault (a : Option String) (d : String) : String :=
  match a with
  | some s => if s ≠ "" then s else d
  | none => d

/-- The value stored for one sides-map side: a raw number is stored as is;
an object stores price or-else lastPrice or-else ask (JS or, so a 0 price
falls through, and the final ask value is stored even when 0 or absent). -/
def sideInfoValue : SideInfo → Option JVal
  | SideInfo.num v => some (JVal.num v)
  | SideInfo.obj price lastPrice ask =>
    match price with
    | some p => if p ≠ 0 then some (JVal.num p) else
        (match lastPrice with
         | some l => if l ≠ 0 then some (JVal.num l) else
             (match ask with
              | some a => some (JVal.num a)
              | none => some JVal.undefined)
         | none =>
             (match ask with
              | some a => some (JVal.num a)
              | none => some JVal.undefined))
    | none =>
        (match lastPrice with
         | some l => if l ≠ 0 then some (JVal.num l) else
             (match ask with
              | some a => some (JVal.num a)
              | none => some JVal.undefined)
         | none =>
             (match ask with
              | some a => some (JVal.num a)
              | none => some JVal.undefined))
  | SideInfo.nullish => none

/-- JS parseFloat(x) or-null: the parsed number unless it is 0 or NaN
(unparseable, null, or absent), in which case null — 0 and NaN are both
falsy. -/
def parseFloatOrNull : Option JNum → JVal
  | some (JNum.num v) => if v ≠ 0 then JVal.num v else JVal.null
  | some JNum.nan => JVal.null
  | none => JVal.null

/-- The sides map built by the generic branch of handleMessage: the sides
object is used if present, else the marketSides array, else the outcomes
array. -/
def genericSidesData (data : GenericData) : List (String × JVal) :=
  match data.sides with
  | some m =>
    m.foldl (fun acc p =>
      match sideInfoValue p.2 with
      | some v => setKey acc p.1 v
      | none => acc) []
  | none =>
    match data.marketSides with
    | some arr =>
      arr.foldl (fun acc e =>
        match e.description with
        | some d => if d ≠ "" then setKey acc d (parseFloatOrNull e.price) else acc
        | none => acc) []
    | none =>
      match data.outcomes with
      | some arr =>
        arr.foldl (fun acc e =>
          match e.name with
          | some n => if n ≠ "" then setKey acc n (parseFloatOrNull e.price) else acc
          | none => acc) []
      | none => []

/-- The sides map built by the market_data_lite branch: outcomes with a
truthy name and a present price (the guard is !== undefined only) are
stored as parsed, with no range check — a present but unparseable or null
price is stored as NaN. -/
def mdlSidesData (outcomes : List OutcomeEntry) : List (String × JVal) :=
  outcomes.foldl (fun acc o =>
    match o.name, o.price with
    | some n, some pf =>
      if n ≠ "" then
        setKey acc n (match pf with
          | JNum.num v => JVal.num v
          | JNum.nan => JVal.nan)
      else acc
    | _, _ => acc) []

/-- The hook's handleMessage (src/hooks/usePolymarketWebSocket.js lines
21-148): control frames first, then the market_data_lite shape, then
subscription acks, then the generic shapes.  Event (score) extraction is
outside the modelled state and omitted. -/
def handleMessage (msg : Msg) (s : HookState) : HookState :=
  match msg with
  | Msg.control t m =>
    if t = "connected" then
      { s with connected := true, error := none, reconnectAttempts := 0 }
    else if t = "disconnected" then { s with connected := false }
    else if t = "heartbeat" then s
    else if t = "error" then { s with error := some (jsOrStrDefault m "Stream error") }
    else s
  | Msg.marketDataLite slugField marketSlugField outcomes bestBid bestAsk =>
    match jsOrStr slugField marketSlugField, outcomes with
    | some slug, some outs =>
      if slug ≠ "" then
        let sidesData := mdlSidesData outs
        let entry : PriceEntry :=
          { sides := some sidesData, bestBid := bestBid, bestAsk := bestAsk }
        if sidesData ≠ [] then
          { s with prices := setKey s.prices slug entry }
        else s
      else s
    | _, _ => s
  | Msg.subscribed => s
  | Msg.generic slugA slugB slugC data =>
    match jsOrStr slugA (jsOrStr slugB slugC) with
    | some slug =>
      if slug ≠ "" ∧ (data.sides.isSome ∨ data.marketSides.isSome ∨ data.outcomes.isSome) then
        let sidesData := genericSidesData data
        let entry : PriceEntry :=
          { sides := some sidesData, bestBid := data.bestBid, bestAsk := data.bestAsk,
            lastTradePrice := data.lastTradePrice, spread := data.spread }
        if sidesData ≠ [] then
          { s with prices := setKey s.prices slug entry }
        else s
      else s
    | none => s

/-- The order-independent canonical form the source compares subscription
sets by: spread, default-sorted, joined with a comma
(src/hooks/usePolymarketWebSocket.js lines 246-247). -/
def sortedKey (slugs : List String) : String :=
  String.intercalate "," (List.insertionSort (fun a b => strLeB a b = true) slugs)

/-- connectWithSlugs (src/hooks/usePolymarketWebSocket.js lines 150-208):
close any existing EventSource, bail out on an empty slug list, truncate to
10 slugs, record them in currentSlugsRef and open a fresh EventSource for
them.  Connection identities are modelled by consecutive ids so that
closing and superseding are observable. -/
def connectWithSlugs (s : HookState) (slugsToConnect : List String) : HookState :=
  let s :=
    match s.eventSource with
    | some cid => { s with closedConns := cid :: s.closedConns, eventSource := none }
    | none => s
  if slugsToConnect = [] then s
  else
    let slugsToUse := slugsToConnect.take 10
    { s with currentSlugs := slugsToUse,
             openedConns := s.openedConns ++ [(s.nextId, slugsToUse)],
             eventSource := some s.nextId,
             nextId := s.nextId + 1 }

/-- Manual connect (lines 210-220): reset the attempt counter and error,
then connect with the hook's slugs (no-op when empty). -/
def connect (s : HookState) (slugs : List String) : HookState :=
  let s := { s with reconnectAttempts := 0, error := none }
  if slugs = [] then s else connectWithSlugs s slugs

/-- disconnect (lines 222-233): cancel any pending reconnect timer, close
the active connection, clear the connected flag and the attempt counter. -/
def disconnect (s : HookState) : HookState :=
  let s := { s with reconnectTimeoutPending := false }
  let s :=
    match s.eventSource with
    | some cid => { s with closedConns := cid :: s.closedConns, eventSource := none }
    | none => s
  { s with connected := false, reconnectAttempts := 0 }

/-- updateSubscription (lines 236-259): ignore empty sets, truncate to 10,
compare the sorted comma-join of the new set against that of the active
set, and only on a difference cancel any pending reconnect, reset the
attempt counter and reconnect with the new set. -/
def updateSubscription (s : HookState) (newSlugs : List String) : HookState :=
  if newSlugs = [] then s
  else
    let slugsToUse := newSlugs.take 10
    let oldSlugs := sortedKey s.currentSlugs
    let newSlugsSorted := sortedKey slugsToUse
    if oldSlugs ≠ newSlugsSorted then
      let s := { s with reconnectTimeoutPending := false, reconnectAttempts := 0 }
      connectWithSlugs s slugsToUse
    else s

/-- The eventSource.onerror handler (lines 183-207): drop the connected
flag, surface a connection error, close the errored EventSource; while
fewer than 5 attempts were made schedule a reconnect after
min(1000 * 2^attempts, 30000) ms and increment the counter, otherwise
surface the terminal error without scheduling.  The second component is
the delay of the reconnect scheduled by this error, none if none was. -/
def onTransportError (s : HookState) : HookState × Option Nat :=
  let s := { s with connected := false, error := some "Connection error" }
  let s :=
    match s.eventSource with
    | some cid => { s with closedConns := cid :: s.closedConns, eventSource := none }
    | none => s
  if s.reconnectAttempts < 5 then
    let delay := min (1000 * 2 ^ s.reconnectAttempts) 30000
    ({ s with reconnectAttempts := s.reconnectAttempts + 1,
              reconnectTimeoutPending := true }, some delay)
  else
    ({ s with error := some "Connection failed. Click sync to retry." }, none)

/-- The reconnect timer firing (lines 199-203): the pending timer is
consumed and, when the current slug set is nonempty, connectWithSlugs is
called with it. -/
def reconnectFire (s : HookState) : HookState :=
  let s := { s with reconnectTimeoutPending := false }
  if s.currentSlugs ≠ [] then connectWithSlugs s s.currentSlugs else s

/-- The state the (n+1)st consecutive transport error fires on, starting
from s: each earlier error was followed by its scheduled reconnect firing
and the fresh connection failing in turn, with no successful open and no
manual connect in between. -/
def errorsFrom (s : HookState) : Nat → HookState
  | 0 => s
  | n + 1 => reconnectFire (onTransportError (errorsFrom s n)).1

/-- Environment delivery of a frame that arrived on connection cid: a
closed EventSource no longer fires its onmessage callback, so only frames
of a connection that was never closed reach handleMessage. -/
def deliver (s : HookState) (cid : Nat) (msg : Msg) : HookState :=
  if cid ∈ s.closedConns then s else handleMessage msg s

/-- A run of subscription requests against the transport. -/
def runUpdates (s : HookState) : List (List String) → HookState
  | [] => s
  | S :: rest => runUpdates (updateSubscription s S) rest

/-- An open position as the valuation code reads it: market id, side name,
share count, cost basis, the snapshot-derived current price and the
optional last market price used as the inference reference. -/
structure Position where
  id : String
  side : String
  shares : Rat
  cost : Rat
  currentPrice : Rat
  marketPrice : Option Rat := none
deriving DecidableEq, Repr

/-- The reference price of the inference heuristic: JS
p.marketPrice or-else p.currentPrice or-else 0.5 (0 is falsy). -/
def refPrice (p : Position) : Rat :=
  match p.marketPrice with
  | some m => if m ≠ 0 then m else (if p.currentPrice ≠ 0 then p.currentPrice else 0.5)
  | none => if p.currentPrice ≠ 0 then p.currentPrice else 0.5

/-- The result of getLivePositionData: live market value and the effective
price it used, as JS numbers since a stored NaN propagates into both. -/
structure LiveData where
  value : JNum
  price : JNum
deriving DecidableEq, Repr

/-- The price-side inference of getLivePositionData (src/unnamed/part_003
lines 3736-3741): between currentPx and 1 - currentPx, pick whichever is
strictly closer to the reference price, the opposite side on a tie. -/
def inferFromCurrentPx (current : Rat) (p : Position) : Rat :=
  let opposite := 1 - current
  if |current - refPrice p| < |opposite - refPrice p| then current else opposite

/-- getLivePositionData (src/unnamed/part_003 lines 3723-3748, identical
copy at lines 851-870): use the exact side price when the sides map has an
entry other than undefined for the position's side, else infer from
currentPx when present, else fall back to the snapshot price.  A null live
price (including a null sides entry) falls back to p.currentPrice, but a
stored NaN is not null, so it is used as the live price and propagates
into the value. -/
def getLivePositionData (p : Position) (wsPrices : List (String × PriceEntry)) : LiveData :=
  let wsData := getKey wsPrices p.id
  let livePrice : JVal :=
    match wsData with
    | none => JVal.null
    | some w =>
      match w.sides with
      | some sidesMap =>
        let v := (getKey sidesMap p.side).getD JVal.undefined
        if v ≠ JVal.undefined then v
        else
          match w.currentPx with
          | some c => JVal.num (inferFromCurrentPx c p)
          | none => JVal.null
      | none =>
        match w.currentPx with
        | some c => JVal.num (inferFromCurrentPx c p)
        | none => JVal.null
  let finalPrice : JNum :=
    match livePrice with
    | JVal.num v => JNum.num v
    | JVal.nan => JNum.nan
    | _ => JNum.num p.currentPrice
  { value := jnumMul (JNum.num p.shares) finalPrice, price := finalPrice }

/-- totalUnrealized (src/unnamed/part_003 lines 3750-3753): the sum over
open positions of live value minus cost, a JS number since any NaN value
poisons the total. -/
def totalUnrealized (positions : List Position) (wsPrices : List (String × PriceEntry)) : JNum :=
  positions.foldl (fun sum p =>
    jnumAdd sum (jnumSub (getLivePositionData p wsPrices).value (JNum.num p.cost)))
    (JNum.num 0)

/-- The single-aggregate-price merge of the part_006 revision (lines
98-115): merge currentPx and the trade/settlement fields over the existing
entry and expose inferredYesPrice = currentPx and
inferredNoPrice = 1 - currentPx. -/
def mergeSinglePrice (prices : List (String × PriceEntry)) (slug : String)
    (currentPrice : Rat) (lastTradePx settlementPx sharesTraded : Option Rat) :
    List (String × PriceEntry) :=
  let existing := (getKey prices slug).getD {}
  setKey prices slug
    { existing with currentPx := some currentPrice, lastTradePx := lastTradePx,
                    settlementPx := settlementPx, sharesTraded := sharesTraded,
                    inferredYesPrice := some currentPrice,
                    inferredNoPrice := some (1 - currentPrice) }

/-- One point of a per-(market, side) price series. -/
structure PricePoint where
  time : Int
  price : Rat
deriving DecidableEq, Repr

/-- The series-append step of the WebSocket price merge effect
(src/unnamed/part_003 lines 303-312): append the point when the series is
empty, the price changed, or more than 5000 ms elapsed since the last
point, then keep only the last 500 points; otherwise leave the series
unchanged. -/
def appendPricePoint (series : List PricePoint) (now : Int) (price : Rat) : List PricePoint :=
  match series.getLast? with
  | none => takeLast 500 (series ++ [{ time := now, price := price }])
  | some lastPoint =>
    if lastPoint.price ≠ price ∨ now - lastPoint.time > 5000 then
      takeLast 500 (series ++ [{ time := now, price := price }])
    else series

/-- A sequence of appends, in arrival order. -/
def appendManyPricePoints (series : List PricePoint) (pts : List PricePoint) : List PricePoint :=
  pts.foldl (fun acc pt => appendPricePoint acc pt.time pt.price) series

/-- Every consecutive pair of points has differing prices, so every append
of the sequence is accepted by the dedup check. -/
def consecDiffB : List PricePoint → Bool
  | [] => true
  | [_] => true
  | a :: b :: rest =>
    if a.price = b.price then false else consecDiffB (b :: rest)

/-- n sample points with strictly increasing times and pairwise different
consecutive values. -/
def mkPts (n : Nat) : List PricePoint :=
  (List.range' 0 n).map (fun i : Nat => { time := (i : Int), price := (i : Rat) })

/-- MomentumIndicator (src/unnamed/part_003 lines 101-128) reduced to the
value it displays: none when fewer than 3 points exist, otherwise the
percentage change from the oldest to the newest of the last 5 points,
suppressed (none) when its absolute value is below 0.3. -/
def MomentumIndicator (priceHistory : List PricePoint) : Option Rat :=
  if priceHistory.length < 3 then none
  else
    let recent := takeLast 5 priceHistory
    if recent.length < 2 then none
    else
      match recent.head?, recent.getLast? with
      | some oldest, some newest =>
        let change := (newest.price - oldest.price) / oldest.price * 100
        if |change| < 0.3 then none else some change
      | _, _ => none

theorem getKey_nil (k : String) : getKey ([] : List (String × α)) k = none := rfl

theorem getKey_setKey (m : List (String × α)) (k : String) (v : α) :
    getKey (setKey m k v) k = some v := by
  induction m with
  | nil => simp [setKey, getKey]
  | cons p rest ih =>
    by_cases h : p.1 = k
    · simp [setKey, getKey, h]
    · simp [setKey, getKey, h, ih]

/-- The concrete position of the price-inference example: last known
snapshot price 0.25. -/
def inferExamplePosition : Position :=
  { id := "m", side := "X", shares := 10, cost := 2, currentPrice := 0.25 }

/-- The concrete price map of the price-inference example: only an
aggregate currentPx of 0.72 for the position's market, no sides map. -/
def inferExamplePrices : List (String × PriceEntry) :=
  [("m", { currentPx := some 0.72 })]

/-- C1: the normalizer's single-aggregate-price merge exposes both
inferredYesPrice = currentPx and inferredNoPrice = 1 - currentPx; for
every position and every price entry for its market carrying a currentPx
but no per-side price for the position's side, the effective price is one
of currentPx and 1 - currentPx, and is at least as close to the position's
reference price as the other; in particular for currentPx = 0.72 against
last known price 0.25 it is 0.28. -/
theorem C1_price_inference (p : Position) (w : PriceEntry)
    (wsPrices : List (String × PriceEntry)) (c : Rat)
    (hfind : getKey wsPrices p.id = some w)
    (hside : ∀ sm, w.sides = some sm → (getKey sm p.side).getD JVal.undefined = JVal.undefined)
    (hcx : w.currentPx = some c) :
    (∃ e : Rat, (getLivePositionData p wsPrices).price = JNum.num e
        ∧ (e = c ∨ e = 1 - c)
        ∧ |e - refPrice p| ≤ |c - refPrice p|
        ∧ |e - refPrice p| ≤ |(1 - c) - refPrice p|)
    ∧ (∀ (prices : List (String × PriceEntry)) (slug : String) (c2 : Rat)
        (lt sp st : Option Rat),
        (getKey (mergeSinglePrice prices slug c2 lt sp st) slug).map
            (fun e => (e.currentPx, e.inferredYesPrice, e.inferredNoPrice))
          = some (some c2, some c2, some (1 - c2)))
    ∧ (getLivePositionData inferExamplePosition inferExamplePrices).price =
        JNum.num 0.28 := by
  have hmain :
      (getLivePositionData p wsPrices).price = JNum.num (inferFromCurrentPx c p) := by
    unfold getLivePositionData
    cases hs : w.sides with
    | none => simp only [hfind, hs, hcx]
    | some sm =>
      have hv := hside sm hs
      simp only [hfind, hs, hv, hcx, ne_eq, not_true_eq_false, if_false]
  have hex : (getLivePositionData inferExamplePosition inferExamplePrices).price =
      JNum.num 0.28 := by
    show JNum.num (if |(0.72 : Rat) - refPrice inferExamplePosition| <
            |1 - 0.72 - refPrice inferExamplePosition| then (0.72 : Rat)
          else 1 - 0.72) = JNum.num 0.28
    have href : refPrice inferExamplePosition = 0.25 := by
      unfold refPrice inferExamplePosition; norm_num
    have hcond : ¬ (|(0.72 : Rat) - 0.25| < |1 - 0.72 - 0.25|) := by
      rw [show (0.72 : Rat) - 0.25 = 0.47 by norm_num,
        show (1 : Rat) - 0.72 - 0.25 = 0.03 by norm_num,
        abs_of_nonneg (by norm_num : (0 : Rat) ≤ 0.47),
        abs_of_nonneg (by norm_num : (0 : Rat) ≤ 0.03)]
      norm_num
    rw [href, if_neg hcond]
    norm_num
  have hmerge : ∀ (prices : List (String × PriceEntry)) (slug : String) (c2 : Rat)
      (lt sp st : Option Rat),
      (getKey (mergeSinglePrice prices slug c2 lt sp st) slug).map
          (fun e => (e.currentPx, e.inferredYesPrice, e.inferredNoPrice))
        = some (some c2, some c2, some (1 - c2)) := by
    intro prices slug c2 lt sp st
    unfold mergeSinglePrice
    rw [getKey_setKey]
    rfl
  refine ⟨⟨inferFromCurrentPx c p, hmain, ?_, ?_, ?_⟩, hmerge, hex⟩ <;>
    unfold inferFromCurrentPx
  · by_cases h : |c - refPrice p| < |1 - c - refPrice p|
    · rw [if_pos h]; exact Or.inl rfl
    · rw [if_neg h]; exact Or.inr rfl
  · by_cases h : |c - refPrice p| < |1 - c - refPrice p|
    · rw [if_pos h]
    · rw [if_neg h]; exact le_of_not_lt h
  · by_cases h : |c - refPrice p| < |1 - c - refPrice p|
    · rw [if_pos h]; exact le_of_lt h
    · rw [if_neg h]

/-- C1 witness: the general statement applied to the concrete 0.72 / 0.25
example map. -/
theorem C1_price_inference_witness :
    (∃ e : Rat, (getLivePositionData inferExamplePosition inferExamplePrices).price =
        JNum.num e ∧ (e = 0.72 ∨ e = 1 - 0.72))
    ∧ (getLivePositionData inferExamplePosition inferExamplePrices).price =
        JNum.num 0.28 := by
  have h := C1_price_inference inferExamplePosition { currentPx := some 0.72 }
    inferExamplePrices 0.72 rfl (fun sm hsm => by cases hsm) rfl
  obtain ⟨e, he, hor, h3, h4⟩ := h.1
  exact ⟨⟨e, he, hor⟩, h.2.2⟩

/-- The concrete position of the stored-NaN example. -/
def nanExamplePosition : Position :=
  { id := "m", side := "X", shares := 10, cost := 2, currentPrice := 0.25 }

/-- The price map produced by a market_data_lite frame whose price for side
X is present but unparseable: the normalizer stored NaN. -/
def nanExamplePrices : List (String × PriceEntry) :=
  [("m", { sides := some [("X", JVal.nan)] })]

/-- C2 counterexample: the valuation can return NaN on a reachable price
map.  A market_data_lite outcome whose price is present but null or
unparseable passes the guard (it is only compared against undefined), is
stored as parseFloat NaN in the sides map, and getLivePositionData then
uses it (NaN is not null), so both the effective price and the value are
NaN instead of a fallback to the snapshot price. -/
theorem C2_counterexample :
    (handleMessage (Msg.marketDataLite (some "m") none
        (some [{ name := some "X", price := some JNum.nan }]) none none)
        initialHookState).prices = nanExamplePrices
    ∧ (getLivePositionData nanExamplePosition nanExamplePrices).price = JNum.nan
    ∧ (getLivePositionData nanExamplePosition nanExamplePrices).value = JNum.nan
    ∧ JNum.nan ≠ JNum.num nanExamplePosition.currentPrice := by
  refine ⟨rfl, rfl, rfl, by intro h; cases h⟩

/-- C2 amended: the valuation never throws (it is a total function); with
an empty price map it returns the snapshot-based result, and the aggregate
unrealized total over an empty map is the snapshot-based sum; for every
map value = shares times effective price under JS arithmetic; but it can
return NaN: a stored-NaN side price for the position's side propagates to
the effective price. -/
theorem C2_valuation_totality (p : Position) (wsPrices : List (String × PriceEntry))
    (ps : List Position) :
    getLivePositionData p [] =
      { value := JNum.num (p.shares * p.currentPrice), price := JNum.num p.currentPrice }
    ∧ (getLivePositionData p wsPrices).value =
        jnumMul (JNum.num p.shares) (getLivePositionData p wsPrices).price
    ∧ totalUnrealized ps [] =
        JNum.num ((ps.map (fun q => q.shares * q.currentPrice - q.cost)).sum)
    ∧ (∀ (w : PriceEntry) (sm : List (String × JVal)),
        getKey wsPrices p.id = some w → w.sides = some sm →
        (getKey sm p.side).getD JVal.undefined = JVal.nan →
        (getLivePositionData p wsPrices).price = JNum.nan) := by
  refine ⟨rfl, rfl, ?_, ?_⟩
  · have haux : ∀ (qs : List Position) (a : Rat),
        qs.foldl (fun sum q =>
          jnumAdd sum (jnumSub (getLivePositionData q []).value (JNum.num q.cost)))
          (JNum.num a)
        = JNum.num (a + (qs.map (fun q => q.shares * q.currentPrice - q.cost)).sum) := by
      intro qs
      induction qs with
      | nil => intro a; simp
      | cons q rest ih =>
        intro a
        rw [List.foldl_cons]
        have hstep : jnumAdd (JNum.num a)
            (jnumSub (getLivePositionData q []).value (JNum.num q.cost))
            = JNum.num (a + (q.shares * q.currentPrice - q.cost)) := rfl
        rw [hstep, ih]
        congr 1
        rw [List.map_cons, List.sum_cons]
        ring
    unfold totalUnrealized
    rw [haux ps 0]
    congr 1
    rw [zero_add]
  · intro w sm hfind hsides hnan
    unfold getLivePositionData
    simp only [hfind, hsides, hnan, ne_eq, reduceCtorEq, not_false_eq_true, if_true]

/-- C2 witness: the amended NaN-propagation conjunct applied to the
concrete stored-NaN map. -/
theorem C2_valuation_totality_witness :
    (getLivePositionData nanExamplePosition nanExamplePrices).price = JNum.nan :=
  (C2_valuation_totality nanExamplePosition nanExamplePrices []).2.2.2
    { sides := some [("X", JVal.nan)] } [("X", JVal.nan)] rfl rfl rfl

theorem takeLast_length (n : Nat) (l : List α) : (takeLast n l).length = min n l.length := by
  unfold takeLast
  rw [List.length_drop]
  omega

theorem takeLast_of_le (n : Nat) (l : List α) (h : l.length ≤ n) : takeLast n l = l := by
  unfold takeLast
  rw [Nat.sub_eq_zero_of_le h, List.drop_zero]

theorem getLast?_drop_of_lt (l : List α) (k : Nat) (h : k < l.length) :
    (l.drop k).getLast? = l.getLast? := by
  induction l generalizing k with
  | nil => simp at h
  | cons a t ih =>
    cases k with
    | zero => rfl
    | succ k2 =>
      have hk : k2 < t.length := by simpa using h
      have ht : t ≠ [] := by
        intro he
        rw [he] at hk
        simp at hk
      rw [List.drop_succ_cons, ih k2 hk]
      cases t with
      | nil => exact absurd rfl ht
      | cons b t2 => rw [List.getLast?_cons_cons]

theorem takeLast_getLast? (n : Nat) (l : List α) (hn : 1 ≤ n) (hl : l ≠ []) :
    (takeLast n l).getLast? = l.getLast? := by
  unfold takeLast
  apply getLast?_drop_of_lt
  have : 0 < l.length := List.length_pos.mpr hl
  omega

theorem takeLast_append_left (n : Nat) (xs ys : List α) :
    takeLast n (takeLast n xs ++ ys) = takeLast n (xs ++ ys) := by
  unfold takeLast
  rw [List.drop_append_eq_append_drop, List.drop_append_eq_append_drop, List.drop_drop]
  congr 1
  · congr 1
    simp only [List.length_append, List.length_drop]
    omega
  · congr 1
    simp only [List.length_append, List.length_drop]
    omega

/-- The acceptance condition of the series-append step, as read off the
source: empty series, changed price, or more than 5000 ms elapsed. -/
def acceptsPoint (series : List PricePoint) (now : Int) (price : Rat) : Prop :=
  series = [] ∨
    ∃ lastPoint, series.getLast? = some lastPoint ∧
      (lastPoint.price ≠ price ∨ now - lastPoint.time > 5000)

theorem appendPricePoint_accepted (series : List PricePoint) (now : Int) (price : Rat)
    (h : acceptsPoint series now price) :
    appendPricePoint series now price =
      takeLast 500 (series ++ [{ time := now, price := price }]) := by
  rcases h with h | ⟨lastP, hl, hc⟩
  · subst h
    rfl
  · simp only [appendPricePoint, hl]
    rw [if_pos hc]

theorem appendPricePoint_length_le (series : List PricePoint) (now : Int) (price : Rat)
    (h : series.length ≤ 500) : (appendPricePoint series now price).length ≤ 500 := by
  cases hl : series.getLast? with
  | none =>
    simp only [appendPricePoint, hl]
    rw [takeLast_length]
    omega
  | some lastP =>
    simp only [appendPricePoint, hl]
    split
    · rw [takeLast_length]; omega
    · exact h

theorem appendMany_length_le (pts : List PricePoint) :
    ∀ series : List PricePoint, series.length ≤ 500 →
      (appendManyPricePoints series pts).length ≤ 500 := by
  induction pts with
  | nil => intro series h; exact h
  | cons p rest ih =>
    intro series h
    unfold appendManyPricePoints
    rw [List.foldl_cons]
    exact ih (appendPricePoint series p.time p.price) (appendPricePoint_length_le series p.time p.price h)

theorem consecDiffB_tail (p : PricePoint) (rest : List PricePoint)
    (h : consecDiffB (p :: rest) = true) : consecDiffB rest = true := by
  cases rest with
  | nil => rfl
  | cons q r2 =>
    unfold consecDiffB at h
    by_cases hpq : p.price = q.price
    · rw [if_pos hpq] at h; cases h
    · rwa [if_neg hpq] at h

theorem consecDiffB_head (p q : PricePoint) (rest : List PricePoint)
    (h : consecDiffB (p :: q :: rest) = true) : p.price ≠ q.price := by
  unfold consecDiffB at h
  by_cases hpq : p.price = q.price
  · rw [if_pos hpq] at h; cases h
  · exact hpq

theorem appendMany_accepted (pts : List PricePoint) :
    ∀ series : List PricePoint, series ≠ [] → series.length ≤ 500 →
      (∀ lastP h0, series.getLast? = some lastP → pts.head? = some h0 →
        lastP.price ≠ h0.price) →
      consecDiffB pts = true →
      appendManyPricePoints series pts = takeLast 500 (series ++ pts) := by
  induction pts with
  | nil =>
    intro series hne hlen _ _
    unfold appendManyPricePoints
    rw [List.foldl_nil, List.append_nil, takeLast_of_le 500 series hlen]
  | cons p rest ih =>
    intro series hne hlen hlink hcd
    obtain ⟨lastP, hl⟩ : ∃ lp, series.getLast? = some lp := by
      cases h : series.getLast? with
      | none => exact absurd (List.getLast?_eq_none_iff.mp h) hne
      | some lp => exact ⟨lp, rfl⟩
    have hdiff : lastP.price ≠ p.price := hlink lastP p hl rfl
    have hacc : appendPricePoint series p.time p.price = takeLast 500 (series ++ [p]) :=
      appendPricePoint_accepted series p.time p.price (Or.inr ⟨lastP, hl, Or.inl hdiff⟩)
    have hne2 : takeLast 500 (series ++ [p]) ≠ [] := by
      intro he
      have hlth := takeLast_length 500 (series ++ [p])
      rw [he] at hlth
      simp at hlth
      omega
    have hlen2 : (takeLast 500 (series ++ [p])).length ≤ 500 := by
      rw [takeLast_length]; omega
    have hlast2 : (takeLast 500 (series ++ [p])).getLast? = some p := by
      rw [takeLast_getLast? 500 (series ++ [p]) (by omega) (by simp), List.getLast?_concat]
    have hlink2 : ∀ lp h0, (takeLast 500 (series ++ [p])).getLast? = some lp →
        rest.head? = some h0 → lp.price ≠ h0.price := by
      cases rest with
      | nil =>
        intro lp h0 _ hh0
        cases hh0
      | cons q r2 =>
        intro lp h0 hlp hh0
        rw [hlast2] at hlp
        rw [List.head?_cons] at hh0
        injection hlp with h1
        injection hh0 with h2
        subst h1
        subst h2
        exact consecDiffB_head p q r2 hcd
    calc appendManyPricePoints series (p :: rest)
        = appendManyPricePoints (takeLast 500 (series ++ [p])) rest := by
          unfold appendManyPricePoints
          rw [List.foldl_cons, hacc]
      _ = takeLast 500 (takeLast 500 (series ++ [p]) ++ rest) :=
          ih (takeLast 500 (series ++ [p])) hne2 hlen2 hlink2 (consecDiffB_tail p rest hcd)
      _ = takeLast 500 ((series ++ [p]) ++ rest) := takeLast_append_left 500 (series ++ [p]) rest
      _ = takeLast 500 (series ++ (p :: rest)) := by rw [List.append_assoc]; rfl

theorem appendMany_from_nil (pts : List PricePoint) (hcd : consecDiffB pts = true) :
    appendManyPricePoints [] pts = takeLast 500 pts := by
  cases pts with
  | nil => rfl
  | cons p rest =>
    have hfirst : appendPricePoint [] p.time p.price = [p] := rfl
    have hstep : appendManyPricePoints [] (p :: rest) = appendManyPricePoints [p] rest := by
      unfold appendManyPricePoints
      rw [List.foldl_cons, hfirst]
    have hlink : ∀ lp h0, ([p] : List PricePoint).getLast? = some lp →
        rest.head? = some h0 → lp.price ≠ h0.price := by
      cases rest with
      | nil =>
        intro lp h0 _ hh0
        cases hh0
      | cons q r2 =>
        intro lp h0 hlp hh0
        rw [List.getLast?_singleton] at hlp
        rw [List.head?_cons] at hh0
        injection hlp with h1
        injection hh0 with h2
        subst h1
        subst h2
        exact consecDiffB_head p q r2 hcd
    rw [hstep, appendMany_accepted rest [p] (List.cons_ne_nil p []) (by simp) hlink
      (consecDiffB_tail p rest hcd)]
    rfl

theorem consecDiffB_map_range (f : Nat → PricePoint)
    (hf : ∀ i, (f i).price ≠ (f (i + 1)).price) :
    ∀ n k, consecDiffB ((List.range' k n).map f) = true := by
  intro n
  induction n with
  | zero => intro k; rfl
  | succ m ih =>
    intro k
    rw [List.range'_succ]
    cases m with
    | zero => rfl
    | succ m2 =>
      rw [List.range'_succ, List.map_cons, List.map_cons]
      show consecDiffB (f k :: f (k + 1) :: (List.range' (k + 2) m2).map f) = true
      unfold consecDiffB
      rw [if_neg (hf k)]
      have := ih (k + 1)
      rw [List.range'_succ, List.map_cons] at this
      exact this

theorem consecDiffB_mkPts (n : Nat) : consecDiffB (mkPts n) = true := by
  unfold mkPts
  apply consecDiffB_map_range _ _ n 0
  intro i
  show (i : Rat) ≠ ((i + 1 : Nat) : Rat)
  intro h
  have h2 : i = i + 1 := Nat.cast_injective h
  omega

theorem mkPts_length (n : Nat) : (mkPts n).length = n := by
  unfold mkPts
  rw [List.length_map, List.length_range']

/-- C6: a point is appended iff the series is empty, its price differs from
the last point, or more than the 5000 ms sampling interval elapsed;
an identical price within the interval is a no-op, and a changed price
always appends: it becomes the new last point and, below the 500 cap,
grows the series by one. -/
theorem C6_series_append_dedup (series : List PricePoint) (now : Int) (price : Rat) :
    (appendPricePoint series now price ≠ series ↔ acceptsPoint series now price)
    ∧ (∀ lastP, series.getLast? = some lastP → lastP.price = price →
        now - lastP.time ≤ 5000 → appendPricePoint series now price = series)
    ∧ (∀ lastP, series.getLast? = some lastP → lastP.price ≠ price →
        (appendPricePoint series now price).getLast? =
            some { time := now, price := price }
        ∧ (series.length < 500 →
            (appendPricePoint series now price).length = series.length + 1)) := by
  refine ⟨?_, ?_, ?_⟩
  · cases hl : series.getLast? with
    | none =>
      have hser : series = [] := List.getLast?_eq_none_iff.mp hl
      subst hser
      refine iff_of_true ?_ (Or.inl rfl)
      intro he
      have h1 : (appendPricePoint [] now price).length = 1 := rfl
      rw [he] at h1
      cases h1
    | some lastP =>
      have hser : series ≠ [] := by
        intro he
        rw [he] at hl
        cases hl
      by_cases hc : lastP.price ≠ price ∨ now - lastP.time > 5000
      · refine iff_of_true ?_ (Or.inr ⟨lastP, hl, hc⟩)
        have happ : appendPricePoint series now price =
            takeLast 500 (series ++ [{ time := now, price := price }]) :=
          appendPricePoint_accepted series now price (Or.inr ⟨lastP, hl, hc⟩)
        intro he
        have hlast : (takeLast 500 (series ++ [{ time := now, price := price }])).getLast? =
            some { time := now, price := price } := by
          rw [takeLast_getLast? 500 _ (by omega) (by simp), List.getLast?_concat]
        rw [← happ, he, hl] at hlast
        injection hlast with hpt
        rcases hc with hc | hc
        · exact hc (by rw [hpt])
        · rw [hpt] at hc
          simp only at hc
          omega
      · have happ : appendPricePoint series now price = series := by
          simp only [appendPricePoint, hl]
          rw [if_neg hc]
        refine iff_of_false (fun h => h happ) ?_
        rintro (he | ⟨lp, hlp, hcc⟩)
        · exact hser he
        · rw [hl] at hlp
          injection hlp with h1
          subst h1
          exact hc hcc
  · intro lastP hl hp ht
    simp only [appendPricePoint, hl]
    rw [if_neg]
    push_neg
    exact ⟨hp, ht⟩
  · intro lastP hl hp
    have happ : appendPricePoint series now price =
        takeLast 500 (series ++ [{ time := now, price := price }]) :=
      appendPricePoint_accepted series now price (Or.inr ⟨lastP, hl, Or.inl hp⟩)
    rw [happ]
    constructor
    · rw [takeLast_getLast? 500 _ (by omega) (by simp), List.getLast?_concat]
    · intro hlen
      rw [takeLast_length]
      simp only [List.length_append, List.length_singleton]
      omega

/-- C6 witness: on a one-point series, an identical price 2 within the
interval is a no-op, and a changed price 3 is appended as the new last
point. -/
theorem C6_series_append_dedup_witness :
    appendPricePoint [{ time := 0, price := 2 }] 1 2 = [{ time := 0, price := 2 }]
    ∧ (appendPricePoint [{ time := 0, price := 2 }] 1 3).getLast? =
        some { time := 1, price := 3 } := by
  refine ⟨?_, ?_⟩
  · exact (C6_series_append_dedup [{ time := 0, price := 2 }] 1 2).2.1
      { time := 0, price := 2 } rfl rfl (by decide)
  · exact ((C6_series_append_dedup [{ time := 0, price := 2 }] 1 3).2.2
      { time := 0, price := 2 } rfl (by decide)).1

/-- C7: series never exceed 500 points under any sequence of appends from
a series within the cap; a fully accepted sequence from an empty series
retains exactly its last 500 points, so appending the 1000 sample points
leaves exactly the most recent 500 in arrival order, oldest evicted. -/
theorem C7_eviction_bound :
    (∀ (series pts : List PricePoint), series.length ≤ 500 →
      (appendManyPricePoints series pts).length ≤ 500)
    ∧ (∀ pts : List PricePoint, consecDiffB pts = true →
        appendManyPricePoints [] pts = takeLast 500 pts)
    ∧ appendManyPricePoints [] (mkPts 1000) = (mkPts 1000).drop 500
    ∧ (appendManyPricePoints [] (mkPts 1000)).length = 500 := by
  have h2 : ∀ pts : List PricePoint, consecDiffB pts = true →
      appendManyPricePoints [] pts = takeLast 500 pts := appendMany_from_nil
  have h3 : appendManyPricePoints [] (mkPts 1000) = (mkPts 1000).drop 500 := by
    rw [h2 (mkPts 1000) (consecDiffB_mkPts 1000)]
    unfold takeLast
    rw [mkPts_length]
  refine ⟨fun series pts h => appendMany_length_le pts series h, h2, h3, ?_⟩
  rw [h3, List.length_drop, mkPts_length]

/-- C7 witness: the cap bound applied to a two-point accepted sequence from
the empty series. -/
theorem C7_eviction_bound_witness :
    (appendManyPricePoints [] [{ time := 0, price := 0 }, { time := 1, price := 1 }]).length ≤ 500
    ∧ appendManyPricePoints [] [{ time := 0, price := 0 }, { time := 1, price := 1 }] =
        takeLast 500 [{ time := 0, price := 0 }, { time := 1, price := 1 }] := by
  refine ⟨?_, ?_⟩
  · exact C7_eviction_bound.1 [] [{ time := 0, price := 0 }, { time := 1, price := 1 }] (by decide)
  · exact C7_eviction_bound.2.1 [{ time := 0, price := 0 }, { time := 1, price := 1 }] (by decide)

theorem connectWithSlugs_attempts (s : HookState) (T : List String) :
    (connectWithSlugs s T).reconnectAttempts = s.reconnectAttempts := by
  cases h : s.eventSource <;> simp only [connectWithSlugs, h] <;> split <;> rfl

theorem reconnectFire_attempts (s : HookState) :
    (reconnectFire s).reconnectAttempts = s.reconnectAttempts := by
  simp only [reconnectFire]
  split
  · rw [connectWithSlugs_attempts]
  · rfl

theorem onTransportError_sched (s : HookState) (h : s.reconnectAttempts < 5) :
    (onTransportError s).2 = some (min (1000 * 2 ^ s.reconnectAttempts) 30000)
    ∧ ((onTransportError s).1).reconnectAttempts = s.reconnectAttempts + 1 := by
  cases he : s.eventSource <;> simp only [onTransportError, he] <;>
    rw [if_pos h] <;> exact ⟨rfl, rfl⟩

theorem onTransportError_terminal (s : HookState) (h : ¬ s.reconnectAttempts < 5) :
    (onTransportError s).2 = none
    ∧ ((onTransportError s).1).error = some "Connection failed. Click sync to retry." := by
  cases he : s.eventSource <;> simp only [onTransportError, he] <;>
    rw [if_neg h] <;> exact ⟨rfl, rfl⟩

theorem errorsFrom_attempts (s : HookState) (h0 : s.reconnectAttempts = 0) :
    ∀ n, n ≤ 5 → (errorsFrom s n).reconnectAttempts = n := by
  intro n
  induction n with
  | zero => intro _; exact h0
  | succ m ih =>
    intro hm
    have ham : (errorsFrom s m).reconnectAttempts = m := ih (by omega)
    show (reconnectFire (onTransportError (errorsFrom s m)).1).reconnectAttempts = m + 1
    rw [reconnectFire_attempts,
      (onTransportError_sched (errorsFrom s m) (by rw [ham]; omega)).2, ham]

/-- C3: starting from a zero attempt counter (any successful open or manual
connect resets it), the Nth consecutive transport error schedules a
reconnect after min(1000 * 2^(N-1), 30000) ms for N = 1..5; the 6th
consecutive error schedules nothing and surfaces the terminal error state
that requires a manual reconnect. -/
theorem C3_backoff (s : HookState) (h0 : s.reconnectAttempts = 0) :
    (∀ N, 1 ≤ N → N ≤ 5 →
      (onTransportError (errorsFrom s (N - 1))).2 =
        some (min (1000 * 2 ^ (N - 1)) 30000))
    ∧ (onTransportError (errorsFrom s 5)).2 = none
    ∧ ((onTransportError (errorsFrom s 5)).1).error =
        some "Connection failed. Click sync to retry." := by
  have hatt := errorsFrom_attempts s h0
  have ha5 : (errorsFrom s 5).reconnectAttempts = 5 := hatt 5 (by omega)
  refine ⟨?_, ?_, ?_⟩
  · intro N h1 h5
    have ha : (errorsFrom s (N - 1)).reconnectAttempts = N - 1 := hatt (N - 1) (by omega)
    have hsched := (onTransportError_sched (errorsFrom s (N - 1)) (by rw [ha]; omega)).1
    rw [ha] at hsched
    exact hsched
  · exact (onTransportError_terminal (errorsFrom s 5) (by rw [ha5]; omega)).1
  · exact (onTransportError_terminal (errorsFrom s 5) (by rw [ha5]; omega)).2

/-- C3 witness: the first error schedules 1000 ms; the 6th schedules
nothing. -/
theorem C3_backoff_witness :
    (onTransportError (errorsFrom initialHookState 0)).2 =
      some (min (1000 * 2 ^ 0) 30000)
    ∧ (onTransportError (errorsFrom initialHookState 5)).2 = none :=
  ⟨(C3_backoff initialHookState rfl).1 1 (by decide) (by decide),
   (C3_backoff initialHookState rfl).2.1⟩

theorem connectWithSlugs_currentSlugs (s : HookState) (T : List String) (hT : T ≠ []) :
    (connectWithSlugs s T).currentSlugs = T.take 10 := by
  cases h : s.eventSource <;> simp only [connectWithSlugs, h] <;> rw [if_neg hT]

theorem connectWithSlugs_openedLen (s : HookState) (T : List String) :
    (connectWithSlugs s T).openedConns.length ≤ s.openedConns.length + 1 := by
  cases h : s.eventSource <;> simp only [connectWithSlugs, h] <;> split <;>
    simp [List.length_append]

theorem take10_ne_nil (S : List String) (hS : S ≠ []) : S.take 10 ≠ [] := by
  intro he
  rcases List.take_eq_nil_iff.mp he with h10 | hnil
  · cases h10
  · exact hS hnil

theorem updateSubscription_noop (t : HookState) (S : List String) (hS : S ≠ [])
    (h : sortedKey t.currentSlugs = sortedKey (S.take 10)) :
    updateSubscription t S = t := by
  unfold updateSubscription
  rw [if_neg hS]
  simp only [h, ne_eq, not_true_eq_false, if_false]

theorem sortedKey_updateSubscription (s : HookState) (S : List String) (hS : S ≠ []) :
    sortedKey ((updateSubscription s S).currentSlugs) = sortedKey (S.take 10) := by
  unfold updateSubscription
  rw [if_neg hS]
  by_cases h : sortedKey s.currentSlugs = sortedKey (S.take 10)
  · simp only [h, ne_eq, not_true_eq_false, if_false]
  · simp only [ne_eq, h, not_false_eq_true, if_true]
    rw [connectWithSlugs_currentSlugs _ _ (take10_ne_nil S hS)]
    simp [List.take_take]

/-- C4: a second updateSubscription call with the same set is a complete
no-op (the order-independent comparison finds the sets equal and no new
connection is opened), and a single call opens at most one connection. -/
theorem C4_update_idempotent (s : HookState) (S : List String) :
    updateSubscription (updateSubscription s S) S = updateSubscription s S
    ∧ (updateSubscription (updateSubscription s S) S).openedConns =
        (updateSubscription s S).openedConns
    ∧ (updateSubscription s S).openedConns.length ≤ s.openedConns.length + 1 := by
  by_cases hS : S = []
  · subst hS
    have h : updateSubscription s [] = s := by
      unfold updateSubscription
      rw [if_pos rfl]
    refine ⟨by rw [h, h], by rw [h, h], by rw [h]; omega⟩
  · have hno := updateSubscription_noop (updateSubscription s S) S hS
      (sortedKey_updateSubscription s S hS)
    refine ⟨hno, by rw [hno], ?_⟩
    unfold updateSubscription
    rw [if_neg hS]
    by_cases h : sortedKey s.currentSlugs = sortedKey (S.take 10)
    · simp only [h, ne_eq, not_true_eq_false, if_false]
      omega
    · simp only [ne_eq, h, not_false_eq_true, if_true]
      exact connectWithSlugs_openedLen _ _

theorem runUpdates_getLast (ops : List (List String)) :
    ∀ (s : HookState) (S : List String), ops.getLast? = some S → S ≠ [] →
      sortedKey ((runUpdates s ops).currentSlugs) = sortedKey (S.take 10) := by
  induction ops with
  | nil => intro s S h _; cases h
  | cons T rest ih =>
    intro s S h hS
    cases rest with
    | nil =>
      rw [List.getLast?_singleton] at h
      injection h with h1
      subst h1
      exact sortedKey_updateSubscription s T hS
    | cons U rest2 =>
      rw [List.getLast?_cons_cons] at h
      exact ih (updateSubscription s T) S h hS

/-- An eleven-element subscription request: one more than the transport's
hard cap. -/
def elevenSlugs : List String :=
  ["a", "b", "c", "d", "e", "f", "g", "h", "i", "j", "k"]

/-- The superseded-connection scenario: request set a while idle, then
request set a,b before anything else happens. -/
def supersededRun : HookState :=
  updateSubscription (updateSubscription initialHookState ["a"]) ["a", "b"]

/-- C5 counterexample: after requesting eleven slugs, the active
subscription set is not the requested set — the eleventh slug was silently
truncated away — refuting the claim that in every reachable state the
active set equals the last requested set. -/
theorem C5_counterexample :
    (updateSubscription initialHookState elevenSlugs).currentSlugs ≠ elevenSlugs
    ∧ "k" ∈ elevenSlugs
    ∧ "k" ∉ (updateSubscription initialHookState elevenSlugs).currentSlugs := by
  refine ⟨?_, ?_, ?_⟩ <;> decide

/-- C5 amended: after any run of nonempty subscription requests the active
set equals, under the code's order-independent canonicalization, the
first-10 truncation of the last request; and in the superseding scenario
the connection opened for set a is closed, the one for set a,b is the
active one, and frames arriving on the superseded connection are
discarded. -/
theorem C5_active_set (ops : List (List String)) (S : List String)
    (hlast : ops.getLast? = some S) (hS : S ≠ []) :
    sortedKey ((runUpdates initialHookState ops).currentSlugs) = sortedKey (S.take 10)
    ∧ supersededRun.eventSource = some 1
    ∧ supersededRun.openedConns = [(0, ["a"]), (1, ["a", "b"])]
    ∧ (0 : Nat) ∈ supersededRun.closedConns
    ∧ supersededRun.currentSlugs = ["a", "b"]
    ∧ ∀ msg : Msg, deliver supersededRun 0 msg = supersededRun := by
  refine ⟨runUpdates_getLast ops initialHookState S hlast hS, by decide, by decide,
    by decide, by decide, ?_⟩
  intro msg
  unfold deliver
  rw [if_pos (by decide)]

/-- C5 witness: the amended invariant applied to a one-request run. -/
theorem C5_active_set_witness :
    sortedKey ((runUpdates initialHookState [["a", "b"]]).currentSlugs) =
      sortedKey (["a", "b"].take 10) :=
  (C5_active_set [["a", "b"]] ["a", "b"] rfl (by decide)).1

/-- C8 counterexample: a parsed price of 1.5, outside the unit interval, is
not treated as missing: it is stored in the sides map and becomes the
effective price in valuation, instead of falling back to the previous
known price 0.25. -/
theorem C8_counterexample :
    (getLivePositionData
        { id := "m", side := "X", shares := 10, cost := 2, currentPrice := 0.25 }
        (handleMessage (Msg.marketDataLite (some "m") none
          (some [{ name := some "X", price := some (JNum.num 1.5) }]) none none)
          initialHookState).prices).price = JNum.num 1.5
    ∧ ¬ ((1.5 : Rat) ≤ 1)
    ∧ (1.5 : Rat) ≠ 0.25 := by
  refine ⟨rfl, by norm_num, by norm_num⟩

/-- C8 amended: parsed prices are stored with no range validation at all —
for every parsed value q, in or out of the unit interval, the
market_data_lite branch records it in the sides map and the valuation uses
it unchanged as the effective price. -/
theorem C8_no_range_check (q : Rat) (slug name : String) (p : Position)
    (hs : slug ≠ "") (hn : name ≠ "") (hid : p.id = slug) (hside : p.side = name) :
    (handleMessage (Msg.marketDataLite (some slug) none
        (some [{ name := some name, price := some (JNum.num q) }]) none none)
        initialHookState).prices
      = [(slug, { sides := some [(name, JVal.num q)] })]
    ∧ (getLivePositionData p
        (handleMessage (Msg.marketDataLite (some slug) none
          (some [{ name := some name, price := some (JNum.num q) }]) none none)
          initialHookState).prices).price = JNum.num q := by
  have hprices : (handleMessage (Msg.marketDataLite (some slug) none
      (some [{ name := some name, price := some (JNum.num q) }]) none none)
      initialHookState).prices
      = [(slug, { sides := some [(name, JVal.num q)] })] := by
    simp only [handleMessage, jsOrStr, ne_eq, hs, not_false_eq_true, if_true,
      mdlSidesData, List.foldl_cons, List.foldl_nil, hn, setKey,
      initialHookState]
    simp [setKey]
  refine ⟨hprices, ?_⟩
  rw [getLivePositionData, hprices]
  simp only [getKey, hid, if_pos rfl, hside]
  simp [getKey]

/-- C9 counterexample: with exactly two points available and a 20 percent
change (far above the 0.3 percent noise threshold), the momentum indicator
still reports no signal, because the source requires at least 3 points,
not 2. -/
theorem C9_counterexample :
    MomentumIndicator [{ time := 0, price := 0.5 }, { time := 1, price := 0.6 }] = none
    ∧ ([{ time := 0, price := 0.5 }, { time := 1, price := 0.6 }] : List PricePoint).length = 2
    ∧ ((0.6 : Rat) - 0.5) / 0.5 * 100 = 20
    ∧ ¬ (|((0.6 : Rat) - 0.5) / 0.5 * 100| < 0.3) := by
  refine ⟨rfl, rfl, by norm_num, ?_⟩
  rw [show ((0.6 : Rat) - 0.5) / 0.5 * 100 = 20 by norm_num,
    abs_of_nonneg (by norm_num : (0 : Rat) ≤ 20)]
  norm_num

/-- C9 amended: the indicator returns no signal exactly when fewer than 3
points are available (not 2); otherwise it takes the last 5 points (or
fewer), returns the signed percentage change from the oldest to the newest
of that window, and suppresses it when its absolute value is below 0.3. -/
theorem C9_momentum (pts : List PricePoint) :
    (pts.length < 3 → MomentumIndicator pts = none)
    ∧ (∀ oldest newest, 3 ≤ pts.length →
        (takeLast 5 pts).head? = some oldest →
        (takeLast 5 pts).getLast? = some newest →
        MomentumIndicator pts =
          (if |(newest.price - oldest.price) / oldest.price * 100| < 0.3 then none
           else some ((newest.price - oldest.price) / oldest.price * 100))) := by
  constructor
  · intro h
    simp only [MomentumIndicator]
    rw [if_pos h]
  · intro oldest newest h3 ho hn
    have hlen2 : ¬ ((takeLast 5 pts).length < 2) := by
      rw [takeLast_length]
      omega
    simp only [MomentumIndicator]
    rw [if_neg (by omega : ¬ pts.length < 3), if_neg hlen2, ho, hn]

/-- The three-point series of the momentum witness. -/
def momentumSample : List PricePoint :=
  [{ time := 0, price := 2 }, { time := 1, price := 2 }, { time := 2, price := 3 }]

/-- C9 witness: the amended characterization applied to a three-point
series. -/
theorem C9_momentum_witness :
    MomentumIndicator momentumSample =
      (if |((3 : Rat) - 2) / 2 * 100| < 0.3 then none
       else some (((3 : Rat) - 2) / 2 * 100)) :=
  (C9_momentum momentumSample).2 { time := 0, price := 2 } { time := 2, price := 3 }
    (by decide) rfl rfl

/-- C10 counterexample: in the sides-map shape a side carried as the raw
number 0 is stored as the number 0, not as null — so the original claim
that all three generic shapes record a zero price as null is false. -/
theorem C10_counterexample :
    (handleMessage (Msg.generic (some "m") none none
        { sides := some [("X", SideInfo.num 0)] }) initialHookState).prices
      = [("m", { sides := some [("X", JVal.num 0)] })]
    ∧ JVal.num 0 ≠ JVal.null := by
  refine ⟨rfl, by decide⟩

/-- C10 amended: a price parsing to exactly 0 is recorded as null in the
marketSides-array and outcomes-array shapes; in the sides-map shape a raw
numeric 0 is stored as the number 0, and an object side stores
price or-else lastPrice or-else ask: when price and lastPrice are 0 or
absent the stored value is the ask field's value — the number 0 when ask
is 0, undefined only when ask is also absent.  Zero is thus conflated with
missing in the two array shapes, and in the object form only when the
fallthrough reaches an absent ask. -/
theorem C10_zero_price (slug name : String) (hs : slug ≠ "") (hn : name ≠ "") :
    genericSidesData
        { marketSides := some [{ description := some name, price := some (JNum.num 0) }] }
      = [(name, JVal.null)]
    ∧ genericSidesData
        { outcomes := some [{ name := some name, price := some (JNum.num 0) }] }
      = [(name, JVal.null)]
    ∧ genericSidesData { sides := some [(name, SideInfo.obj (some 0) none none)] }
      = [(name, JVal.undefined)]
    ∧ genericSidesData { sides := some [(name, SideInfo.obj (some 0) (some 0) none)] }
      = [(name, JVal.undefined)]
    ∧ (∀ a : Rat,
        genericSidesData { sides := some [(name, SideInfo.obj (some 0) (some 0) (some a))] }
          = [(name, JVal.num a)])
    ∧ genericSidesData { sides := some [(name, SideInfo.num 0)] }
      = [(name, JVal.num 0)]
    ∧ (handleMessage (Msg.generic (some slug) none none
        { marketSides := some [{ description := some name, price := some (JNum.num 0) }] })
        initialHookState).prices
      = [(slug, { sides := some [(name, JVal.null)] })] := by
  refine ⟨?_, ?_, ?_, ?_, ?_, ?_, ?_⟩
  · simp [genericSidesData, parseFloatOrNull, setKey, hn]
  · simp [genericSidesData, parseFloatOrNull, setKey, hn]
  · simp [genericSidesData, sideInfoValue, setKey]
  · simp [genericSidesData, sideInfoValue, setKey]
  · intro a
    simp [genericSidesData, sideInfoValue, setKey]
  · simp [genericSidesData, sideInfoValue, setKey]
  · simp only [handleMessage, jsOrStr, ne_eq, hs, not_false_eq_true, if_true]
    simp [genericSidesData, parseFloatOrNull, setKey, hn, hs, initialHookState]

/-- C8 witness: the amended no-range-check statement applied to q = 1.5. -/
theorem C8_no_range_check_witness :
    (handleMessage (Msg.marketDataLite (some "m") none
        (some [{ name := some "X", price := some (JNum.num 1.5) }]) none none)
        initialHookState).prices
      = [("m", { sides := some [("X", JVal.num 1.5)] })] :=
  (C8_no_range_check 1.5 "m" "X"
    { id := "m", side := "X", shares := 10, cost := 2, currentPrice := 0.25 }
    (by decide) (by decide) rfl rfl).1

/-- C10 witness: the amended zero-price statement applied to concrete slug
and side names, including the ask-is-zero object form. -/
theorem C10_zero_price_witness :
    genericSidesData
        { marketSides := some [{ description := some "X", price := some (JNum.num 0) }] }
      = [("X", JVal.null)]
    ∧ genericSidesData { sides := some [("X", SideInfo.obj (some 0) (some 0) (some 0))] }
      = [("X", JVal.num 0)]
    ∧ genericSidesData { sides := some [("X", SideInfo.num 0)] }
      = [("X", JVal.num 0)] := by
  have h := C10_zero_price "m" "X" (by decide) (by decide)
  exact ⟨h.1, h.2.2.2.2.1 0, h.2.2.2.2.2.1⟩

end Scalp
